import Mathlib

/-!
Verification of the RIS 2CVRT live-timing scraper
(src/livetiming/ris2cvrt.py, the XML-capable module, and its HTML-only
near-duplicate src/livetiming/service/plugins/ris2cvrt.py).

Shallow embedding conventions:
* Python strings are Lean `String`s; character-level work is done on `.data`.
* Python `re`'s digit class and `str.lower`/`str.strip` are modelled over
  ASCII (the claims only exercise ASCII data).
* Lap times are exact rationals (`ℚ`); Python computes the same value in
  IEEE floats, the formula `minutes*60 + seconds + millis/1000` is modelled
  exactly.
* The network and the two third-party parsers (requests, ElementTree,
  BeautifulSoup) are an explicit environment `Env`: a fetch oracle giving,
  per URL, either a raised exception or a `(status, body)` response, and
  parse oracles turning a body into the structured document the library
  would produce.  `getRaceState` is then a pure function of `Env` and the
  service's mutable state, returning `Except PyExn RaceState` (exceptions
  that escape the Python method are `Except.error`) together with the
  post-state.
-/

/-! ## Character/string helpers used by the source -/

def isWS (c : Char) : Bool := c.isWhitespace

def isDigitB (c : Char) : Bool := c.isDigit

/-- Python `str.strip()` (ASCII whitespace model). -/
def stripChars (cs : List Char) : List Char :=
  ((cs.dropWhile isWS).reverse.dropWhile isWS).reverse

/-- Python `str.lstrip()`. -/
def lstripChars (cs : List Char) : List Char := cs.dropWhile isWS

/-- Numeric value of a list of ASCII digits, as Python `int()` computes it. -/
def digitsVal (cs : List Char) : Nat :=
  cs.foldl (fun a c => 10 * a + (c.toNat - 48)) 0

/-- Python `'...'.ljust(3, '0')` on a fractional part of length at most 3. -/
def padTo3 (f : List Char) : List Char := f ++ List.replicate (3 - f.length) '0'

def allDigits (cs : List Char) : Bool := cs.all isDigitB

/-! ## `_parse_lap_time` (ris2cvrt.py lines 18-35, plugins lines 15-27)

The Python code matches `^(?:(\d+):)?(\d{1,2})(?:[.,](\d{1,3}))?$` against the
stripped text.  Since the three groups are separated by the non-digit
characters `:` and `.`/`,`, regex backtracking never produces an alternative
match, and the regex is equivalent to the deterministic scanner below
(`matchLap`): take the maximal digit prefix; if a `:` follows it, the prefix
is the minutes group (required non-empty) and the remainder after the colon
must be 1-2 digit seconds plus an optional 1-3 digit fraction; otherwise the
regex's optional minutes group is skipped and the whole string must be the
seconds-plus-fraction tail. -/

/-- `(\d{1,3})$` after the separator: all remaining characters must be 1-3
digits; returns the millisecond value after right-padding with zeros. -/
def fracCheck (fs : List Char) : Option Nat :=
  if fs.dropWhile isDigitB = [] ∧ 1 ≤ (fs.takeWhile isDigitB).length ∧
      (fs.takeWhile isDigitB).length ≤ 3 then
    some (digitsVal (padTo3 (fs.takeWhile isDigitB)))
  else none

/-- `^(\d{1,2})(?:[.,](\d{1,3}))?$` where `d` is the maximal digit prefix and
`tail` the rest: returns (seconds, millis). -/
def secTail (d tail : List Char) : Option (Nat × Nat) :=
  if d.length = 1 ∨ d.length = 2 then
    match tail with
    | [] => some (digitsVal d, 0)
    | c :: fs =>
      if c = '.' ∨ c = ',' then (fracCheck fs).map (fun mil => (digitsVal d, mil))
      else none
  else none

def matchSecFrac (cs : List Char) : Option (Nat × Nat) :=
  secTail (cs.takeWhile isDigitB) (cs.dropWhile isDigitB)

/-- The full regex, given the maximal digit prefix `d` and the rest `rest`:
returns (minutes, seconds, millis). -/
def matchLapAux (d rest : List Char) : Option (Nat × Nat × Nat) :=
  match rest with
  | [] => (matchSecFrac d).map (fun p => (0, p.1, p.2))
  | c :: r2 =>
    if c = ':' then
      if d = [] then none
      else (matchSecFrac r2).map (fun p => (digitsVal d, p.1, p.2))
    else (matchSecFrac (d ++ c :: r2)).map (fun p => (0, p.1, p.2))

def matchLap (cs : List Char) : Option (Nat × Nat × Nat) :=
  matchLapAux (cs.takeWhile isDigitB) (cs.dropWhile isDigitB)

/-- The sentinel set `{'-', '—', 'NA', 'N/A'}` from the source. -/
def sentinels : List (List Char) := [['-'], ['—'], ['N', 'A'], ['N', '/', 'A']]

/-- `_parse_lap_time` (source lines 18-35): `None` on empty/sentinel/unmatched
text, otherwise `minutes*60 + seconds + millis/1000` with the fractional part
right-padded with zeros to three digits. -/
def _parse_lap_time (txt : String) : Option ℚ :=
  if txt.data = [] then none
  else if stripChars txt.data = [] ∨ sentinels.contains (stripChars txt.data) then none
  else (matchLap (stripChars txt.data)).map
    (fun m => ((m.1 * 60 + m.2.1 : Nat) : ℚ) + (m.2.2 : ℚ) / 1000)

/-! ### Specification-side grammar for C2

`LapDecomp cs hasMin mins secs hasFrac sep frac` states, in the words of the
spec, that `cs` is exactly `[minutes ':'] seconds [sep fraction]` with 1+
digit minutes, 1-2 digit seconds, and a 1-3 digit fraction after `.` or `,`. -/

def optMinPart (hasMin : Bool) (mins : List Char) : List Char :=
  if hasMin then mins ++ [':'] else []

def optFracPart (hasFrac : Bool) (sep : Char) (frac : List Char) : List Char :=
  if hasFrac then sep :: frac else []

def LapDecomp (cs : List Char) (hasMin : Bool) (mins secs : List Char)
    (hasFrac : Bool) (sep : Char) (frac : List Char) : Prop :=
  cs = optMinPart hasMin mins ++ secs ++ optFracPart hasFrac sep frac
  ∧ (hasMin = true → mins ≠ [] ∧ allDigits mins = true)
  ∧ (hasMin = false → mins = [])
  ∧ secs ≠ [] ∧ secs.length ≤ 2 ∧ allDigits secs = true
  ∧ (hasFrac = true → (sep = '.' ∨ sep = ',') ∧ frac ≠ [] ∧ frac.length ≤ 3 ∧ allDigits frac = true)
  ∧ (hasFrac = false → frac = [] ∧ sep = '.')

/-! ## Text normalizer `_text` (source lines 38-39)

`re.sub(r'\s+', ' ', el.get_text(...)).strip()`: every maximal whitespace run
becomes a single space and the ends are trimmed.  In the embedding an HTML
cell carries the raw text `get_text` would return, and `_text` normalizes it. -/

def dedupSpaces : List Char → List Char
  | [] => []
  | [c] => [c]
  | a :: b :: r => if a = ' ' ∧ b = ' ' then dedupSpaces (b :: r) else a :: dedupSpaces (b :: r)

def _text (raw : String) : String :=
  ⟨stripChars (dedupSpaces (raw.data.map (fun c => if isWS c then ' ' else c)))⟩

/-- Python `str.lower()` (ASCII model). -/
def lowerS (s : String) : String := ⟨s.data.map Char.toLower⟩

/-! ## HTML document model

`BeautifulSoup(html).find_all('table')` is modelled as a list of tables; a
table is its `tr` rows in document order; a row is its `th`/`td` cells in
document order (nested tables are out of scope of the claims). -/

structure HtmlCell where
  isTH : Bool
  raw : String
deriving DecidableEq

abbrev HtmlRow := List HtmlCell

abbrev HtmlTable := List HtmlRow

def cellText (c : HtmlCell) : String := _text c.raw

def cellLabel (c : HtmlCell) : String := lowerS (cellText c)

/-- Python substring test `needle in hay`. -/
def containsSub (hay needle : String) : Bool :=
  hay.data.tails.any (fun t => needle.data.isPrefixOf t)

/-- `candidate.find_all(['th', 'td'])`: all cells of the table in order. -/
def tableCells (t : HtmlTable) : List HtmlCell := t.flatten

/-! ### Table locator (source lines 219-232) -/

def locatorKeywords : List String := ["pos", "now", "num", "team", "drivers", "best", "last"]

/-- `' '.join(_text(h).lower() for h in headers[:15])`. -/
def headTxt (t : HtmlTable) : String :=
  String.intercalate " " (((tableCells t).take 15).map cellLabel)

def tableQualifies (t : HtmlTable) : Bool :=
  locatorKeywords.any (fun k => containsSub (headTxt t) k)

/-- First table whose head text contains a keyword, else the first table. -/
def locateTable (tables : List HtmlTable) : Option HtmlTable :=
  match tables.find? tableQualifies with
  | some t => some t
  | none => tables.head?

/-! ### Header row detection (source lines 275-284) -/

def headerKeywords : List String :=
  ["pos", "now", "num", "#", "team", "drivers", "last", "best", "best time"]

/-- `cells = ths if ths else tds; labels = [_text(c).lower() for c in cells]`. -/
def detectLabels (r : HtmlRow) : List String :=
  if (r.filter (fun c => c.isTH)) ≠ [] then (r.filter (fun c => c.isTH)).map cellLabel
  else (r.filter (fun c => !c.isTH)).map cellLabel

def isHeaderRow (r : HtmlRow) : Bool :=
  headerKeywords.any (fun k => (detectLabels r).contains k)

def findHeaderIdx (t : HtmlTable) : Option Nat := t.findIdx? isHeaderRow

/-! ### Column mapper (source lines 286-305) -/

/-- `labels.index(a)`: index of the first occurrence, `none` when absent. -/
def findIdxS (a : String) : List String → Option Nat
  | [] => none
  | b :: r => if b = a then some 0 else (findIdxS a r).map (· + 1)

/-- `def idx(*alts): for a in alts: if a in labels: return labels.index(a)`. -/
def idxOf (labels : List String) : List String → Option Nat
  | [] => none
  | a :: alts =>
    match findIdxS a labels with
    | some i => some i
    | none => idxOf labels alts

structure ColIdx where
  pos : Option Nat
  state : Option Nat
  num : Option Nat
  team : Option Nat
  drivers : Option Nat
  last : Option Nat
  best : Option Nat
  lap : Option Nat
  gap : Option Nat
deriving DecidableEq

/-- `labels = [_text(c).lower() for c in header_row.find_all(['th', 'td'])]`. -/
def headerLabels (r : HtmlRow) : List String := r.map cellLabel

def buildColIdx (labels : List String) : ColIdx :=
  { pos := idxOf labels ["pos", "position"]
  , state := idxOf labels ["now", "state", "status"]
  , num := idxOf labels ["num", "#", "car", "n°", "nº"]
  , team := idxOf labels ["team", "name"]
  , drivers := idxOf labels ["drivers", "driver", "pilote", "pilotes"]
  , last := idxOf labels ["last", "last time", "last lap", "dernier", "dernier tour"]
  , best := idxOf labels ["best", "best time", "best lap", "meilleur", "meilleur tour"]
  , lap := idxOf labels ["lap", "laps", "tour", "tours"]
  , gap := idxOf labels ["gap", "ecart", "écart"] }

/-! ### Row extractor, HTML path (source lines 307-344) -/

structure CarRow where
  num : String
  state : String
  driver : String
  lastLap : Option ℚ
  bestLap : Option ℚ
deriving DecidableEq

/-- Python string truthiness choice `a or b`. -/
def pyOrStr (a b : String) : String := if a = "" then b else a

/-- `tds = tr.find_all('td')`, then each is passed through `_text`. -/
def rowTds (r : HtmlRow) : List String := (r.filter (fun c => !c.isTH)).map cellText

/-- `def get(idx_name): return _text(tds[i]) if (i is not None and i < len(tds)) else ''`. -/
def getCol (tds : List String) : Option Nat → String
  | some i => tds.getD i ""
  | none => ""

def htmlRowNum (ci : ColIdx) (r : HtmlRow) : String := getCol (rowTds r) ci.num

/-- One data row: `if not tds: continue`, `if not num: continue`, then the
row dict (`state` keeps `get('state') or ''` which is the identity on the
already-defaulted empty string; `who = team_txt or drv_txt`). -/
def processHtmlRow (ci : ColIdx) (r : HtmlRow) : Option CarRow :=
  if rowTds r = [] then none
  else if htmlRowNum ci r = "" then none
  else some
    { num := htmlRowNum ci r
    , state := getCol (rowTds r) ci.state
    , driver := pyOrStr (getCol (rowTds r) ci.team) (getCol (rowTds r) ci.drivers)
    , lastLap := _parse_lap_time (getCol (rowTds r) ci.last)
    , bestLap := _parse_lap_time (getCol (rowTds r) ci.best) }

/-- Data rows are the rows strictly after the header row. -/
def htmlDataCars (ci : ColIdx) (rows : List HtmlRow) : List CarRow :=
  rows.filterMap (processHtmlRow ci)

/-- The whole HTML extraction: locate table, find header, map columns,
extract rows.  No table or no header row yields zero cars (`cars` stays
`[]` because the data loop sits under `if header_row:`). -/
def htmlExtract (tables : List HtmlTable) : List CarRow :=
  match locateTable tables with
  | none => []
  | some t =>
    match findHeaderIdx t with
    | none => []
    | some i => htmlDataCars (buildColIdx (headerLabels (t.getD i []))) (t.drop (i + 1))

/-! ## XML document model (ElementTree) -/

inductive XNode where
  | node (tag : String) (text : Option String) (children : List XNode)

def XNode.tag : XNode → String
  | .node t _ _ => t

def XNode.text : XNode → Option String
  | .node _ x _ => x

def XNode.children : XNode → List XNode
  | .node _ _ ch => ch

/-- Strict descendants in document (preorder) order, as `findall('.//tag')`
traverses them. -/
def descList : List XNode → List XNode
  | [] => []
  | XNode.node t x ch :: r => XNode.node t x ch :: (descList ch ++ descList r)

def XNode.desc (n : XNode) : List XNode := descList n.children

/-- Python dict built by comprehension: a later duplicate key overwrites an
earlier one, so lookup finds the last occurrence. -/
def dictGet (l : List (String × String)) (k : String) : Option String :=
  (l.reverse.find? (fun p => p.1 == k)).map (fun p => p.2)

/-- `children = {c.tag.lower(): (c.text or '').strip() for c in list(node)}`. -/
def childTexts (n : XNode) : List (String × String) :=
  n.children.map (fun c => (lowerS c.tag, ⟨stripChars (c.text.getD "").data⟩))

/-- `def cget(*alts): for a in alts: v = children.get(a); if v: return v; return ''`. -/
def cget (l : List (String × String)) : List String → String
  | [] => ""
  | a :: alts =>
    match dictGet l a with
    | some v => if v = "" then cget l alts else v
    | none => cget l alts

/-! ### Row extractor, XML path (source lines 237-267).

Note: in the source this block is unreachable — the cycle raises at line 222
before it — but it is modelled faithfully for the row-filter claims. -/

def xmlNodeNum (n : XNode) : String :=
  cget (childTexts n) ["num", "number", "car", "#", "n", "n°", "nº"]

def processXmlNode (n : XNode) : Option CarRow :=
  if xmlNodeNum n = "" then none
  else some
    { num := xmlNodeNum n
    , state := cget (childTexts n) ["state", "now", "status"]
    , driver := cget (childTexts n) ["team", "drivers", "driver", "pilote"]
    , lastLap := _parse_lap_time (cget (childTexts n) ["last", "lastlap", "last_time", "dernier"])
    , bestLap := _parse_lap_time (cget (childTexts n) ["best", "bestlap", "best_time", "meilleur"]) }

def xmlCarsOf (nodes : List XNode) : List CarRow := nodes.filterMap processXmlNode

def carNodeTags : List String := ["ligne", "line", "car", "row", "item"]

/-- `for tag in (...): car_nodes.extend(root.findall('.//{}'.format(tag)))`. -/
def carNodes (root : XNode) : List XNode :=
  (carNodeTags.map (fun tg => root.desc.filter (fun n => n.tag == tg))).flatten

/-! ### XML session metadata (source lines 184-209).

Also unreachable-before-crash in the source; modelled for completeness.
`root.find('.//lineinfo') or root.find('lineinfo')` relies on ElementTree's
element truthiness: an element with no children is falsy. -/

def findLineinfo (root : XNode) : Option XNode :=
  match root.desc.find? (fun n => n.tag == "lineinfo") with
  | some e =>
    if e.children.isEmpty then root.children.find? (fun n => n.tag == "lineinfo") else some e
  | none => root.children.find? (fun n => n.tag == "lineinfo")

/-- `findtext`: text of the first matching direct child (empty string when the
element exists but has no text), `none` when no such child exists. -/
def findtextD (n : XNode) (tg : String) : Option String :=
  (n.children.find? (fun c => c.tag == tg)).map (fun c => c.text.getD "")

/-- Python `a or b or ''` over optional strings. -/
def firstTruthy : List (Option String) → String
  | [] => ""
  | o :: r =>
    match o with
    | some s => if s = "" then firstTruthy r else s
    | none => firstTruthy r

/-- Python `int()` on a string: optional sign, digits (digit-group
underscores, irrelevant to the claims, are not modelled). -/
def pyInt (s : String) : Option Int :=
  match stripChars s.data with
  | '-' :: ds => if ds ≠ [] ∧ allDigits ds = true then some (-(digitsVal ds : Int)) else none
  | '+' :: ds => if ds ≠ [] ∧ allDigits ds = true then some (digitsVal ds : Int) else none
  | ds => if ds ≠ [] ∧ allDigits ds = true then some (digitsVal ds : Int) else none

def remainOfParts : List (Option Int) → Option Int
  | [some a, some b, some c] => some (a * 3600 + b * 60 + c)
  | [some a, some b] => some (a * 60 + b)
  | [some a] => some a
  | _ => none

def remainOfTxt (t : String) : Option Int :=
  if t = "" then none else remainOfParts ((t.splitOn ":").map pyInt)

def xmlSessionMeta (root : XNode) : Option String × Option String × Option Int :=
  match findLineinfo root with
  | none => (none, none, none)
  | some li =>
    (some ⟨stripChars (firstTruthy [findtextD li "seance", findtextD li "race"]).data⟩,
     some ⟨stripChars (firstTruthy [findtextD li "messageDC2", findtextD li "messageDC1"]).data⟩,
     remainOfTxt ⟨stripChars (firstTruthy [findtextD li "remain"]).data⟩)

/-! ## XML candidate URL derivation (source lines 110-127) -/

/-- Python `s.rsplit(sep, 1)` when `sep` occurs: the parts before and after
the last occurrence. -/
def rsplitLast (cs : List Char) (sep : Char) : Option (List Char × List Char) :=
  if (cs.reverse.takeWhile (fun c => c != sep)).length = cs.length then none
  else some (cs.take (cs.length - (cs.reverse.takeWhile (fun c => c != sep)).length - 1),
             (cs.reverse.takeWhile (fun c => c != sep)).reverse)

/-- `url.rsplit('.', 1)[0]`. -/
def baseNoExt (s : String) : String :=
  match rsplitLast s.data '.' with
  | some p => ⟨p.1⟩
  | none => s

/-- `url.rsplit('/', 1)[-1]`. -/
def fileNameOf (s : String) : String :=
  match rsplitLast s.data '/' with
  | some p => ⟨p.2⟩
  | none => s

/-- `str.replace`, non-overlapping left-to-right, with a fuel argument
(initial fuel = the length of the subject, enough for a non-empty
pattern). -/
def replaceGo (old new : List Char) : Nat → List Char → List Char
  | _, [] => []
  | 0, cs => cs
  | fuel + 1, c :: cs =>
    if old.isPrefixOf (c :: cs) then new ++ replaceGo old new fuel (List.drop (old.length - 1) cs)
    else c :: replaceGo old new fuel cs

/-- `s.replace(old, new)`.  The source only calls it with a non-empty `old`
(a filename containing a dot); the empty-pattern case is mapped to `s`. -/
def pyReplace (s old new : String) : String :=
  if old.data = [] then s else ⟨replaceGo old.data new.data s.data.length s.data⟩

def DATA_SOURCE_URL : String := "https://results.ris-timing.be/2cvrt/live/live2025.htm"

/-- Lines 112-117: `[f"{base_no_ext}.xml"]`, plus, when the filename contains
a dot, `url.replace(filename, stem + '.xml')`. -/
def xmlCandidates (url : String) : List String :=
  [baseNoExt url ++ ".xml"] ++
    (if (fileNameOf url).data.contains '.' then
      [pyReplace url (fileNameOf url) (baseNoExt (fileNameOf url) ++ ".xml")]
    else [])

/-! ## The cycle orchestrator `Service.getRaceState` (source lines 100-387) -/

inductive FetchOutcome where
  | exn
  | resp (status : Nat) (body : String)
deriving DecidableEq

inductive PyExn where
  | attributeError
deriving DecidableEq

/-- The per-cycle environment: the network fetch oracle (`requests.get`,
deterministic within a cycle) and the third-party parsers
(`ET.fromstring` returning `none` on a parse error; BeautifulSoup's
table list), plus the current wall-clock time. -/
structure Env where
  fetch : String → FetchOutcome
  parseXml : String → Option XNode
  parseHtml : String → List HtmlTable
  now : Nat

/-- The service's mutable fields set in `__init__` (lines 56-59). -/
structure SvcState where
  last_fetch_ok : Bool
  last_session_name : Option String
  last_flag : Option String
  last_remaining : Option Int
deriving DecidableEq

structure SessionInfo where
  name : String
  flag : String
  remaining : Option Int
  clock : Nat
  source_ok : Bool
deriving DecidableEq

structure RaceState where
  cars : List CarRow
  session : SessionInfo
deriving DecidableEq

def initState : SvcState :=
  { last_fetch_ok := false, last_session_name := none, last_flag := none, last_remaining := none }

/-- Lines 119-127: a candidate is accepted when the fetch does not raise,
the status is exactly 200, the body is non-empty and its left-stripped text
starts with an XML declaration. -/
def acceptXmlBody : FetchOutcome → Option String
  | FetchOutcome.exn => none
  | FetchOutcome.resp s body =>
    if s = 200 ∧ body ≠ "" ∧ ("<?xml".data.isPrefixOf (lstripChars body.data) = true)
    then some body else none

/-- Lines 111-141: try the candidates in order, then `ET.fromstring`; a parse
failure falls back to the HTML path (`xml_text = None`). -/
def selectXml (env : Env) : Option XNode :=
  ((xmlCandidates DATA_SOURCE_URL).findSome? (fun xu => acceptXmlBody (env.fetch xu))).bind
    env.parseXml

/-- Lines 145-148: `requests.get(url); r.raise_for_status()`.
`raise_for_status` raises exactly for statuses in [400, 600). -/
def htmlFetch (env : Env) : Option String :=
  match env.fetch DATA_SOURCE_URL with
  | FetchOutcome.exn => none
  | FetchOutcome.resp s body => if 400 ≤ s ∧ s < 600 then none else some body

/-- Python `opt or default` on an optional string field. -/
def pyOrOpt (o : Option String) (d : String) : String :=
  match o with
  | none => d
  | some s => if s = "" then d else s

/-- The emitted session dict (lines 163-172 on failure, 378-387 on success):
sticky fields from the cache with defaults, fresh clock and source flag. -/
def cacheSession (st : SvcState) (now : Nat) (ok : Bool) : SessionInfo :=
  { name := pyOrOpt st.last_session_name "2CVRT"
  , flag := pyOrOpt st.last_flag ""
  , remaining := st.last_remaining
  , clock := now
  , source_ok := ok }

/-- `Service.getRaceState` of the XML-capable module.

XML branch: when a candidate XML body is fetched and parses, the code leaves
`soup = None` (line 175-177 only builds the soup when `xml_text is None`) and
then unconditionally evaluates `soup.find_all('table')` at line 222, raising
`AttributeError` before the car extraction (lines 237-267) and before the
cache update (lines 370-376).  The session-meta computation of lines 184-209
(`xmlSessionMeta`) runs before the crash but only writes local variables, so
the escaping exception leaves the service state unchanged.

HTML branch: on a fetch exception or 4xx/5xx status the early return of
lines 163-172 emits the cached sticky fields with `source_ok = False`;
otherwise the table pipeline runs and the return of lines 378-387 emits
`source_ok = True`.  On the HTML path `session_name`, `flag` and `remaining`
are never assigned (lines 210-217 only look at the banner and set nothing),
so the guarded cache update of lines 370-376 assigns nothing. -/
def getRaceState (env : Env) (st : SvcState) : Except PyExn RaceState × SvcState :=
  match selectXml env with
  | some _ => (Except.error PyExn.attributeError, st)
  | none =>
    match htmlFetch env with
    | none =>
      (Except.ok { cars := [], session := cacheSession st env.now false },
       { st with last_fetch_ok := false })
    | some body =>
      (Except.ok { cars := htmlExtract (env.parseHtml body), session := cacheSession st env.now true },
       { st with last_fetch_ok := true })

/-- `Service.getRaceState` of the HTML-only plugins module (plugins lines
70-196): the same pipeline without the XML probe; it cannot raise, hence the
plain (non-`Except`) result type. -/
def pluginsGetRaceState (env : Env) (st : SvcState) : RaceState × SvcState :=
  match htmlFetch env with
  | none =>
    ({ cars := [], session := cacheSession st env.now false }, { st with last_fetch_ok := false })
  | some body =>
    ({ cars := htmlExtract (env.parseHtml body), session := cacheSession st env.now true },
     { st with last_fetch_ok := true })

/-! ## Concrete fixtures used by witnesses and counterexamples -/

def td (s : String) : HtmlCell := { isTH := false, raw := s }

def xmlUrlStr : String := "https://results.ris-timing.be/2cvrt/live/live2025.xml"

/-- A cycle in which the XML candidate URL serves a well-formed XML body. -/
def envC1 : Env :=
  { fetch := fun u =>
      if u = xmlUrlStr then FetchOutcome.resp 200 "<?xml version=\"1.0\"?><results></results>"
      else FetchOutcome.exn
  , parseXml := fun _ => some (XNode.node "results" none [])
  , parseHtml := fun _ => []
  , now := 11 }

def rootC3 : XNode :=
  XNode.node "results" none [XNode.node "lineinfo" none [XNode.node "seance" (some "RACE 1") []]]

/-- XML selected and parsed, with session metadata but zero car nodes. -/
def envC3 : Env :=
  { fetch := fun u =>
      if u = xmlUrlStr then
        FetchOutcome.resp 200 "<?xml version=\"1.0\"?><results><lineinfo><seance>RACE 1</seance></lineinfo></results>"
      else FetchOutcome.exn
  , parseXml := fun _ => some rootC3
  , parseHtml := fun _ => []
  , now := 22 }

def rootC7 : XNode :=
  XNode.node "results" none [XNode.node "ligne" none [XNode.node "num" (some "7") []]]

/-- A fixed XML source document served on every cycle. -/
def envC7 : Env :=
  { fetch := fun u =>
      if u = xmlUrlStr then
        FetchOutcome.resp 200 "<?xml version=\"1.0\"?><results><ligne><num>7</num></ligne></results>"
      else FetchOutcome.exn
  , parseXml := fun _ => some rootC7
  , parseHtml := fun _ => []
  , now := 33 }

/-- Both XML probes raise; the HTML fetch returns a 302 (non-2xx, but
`raise_for_status` does not raise for it). -/
def envC4ce : Env :=
  { fetch := fun u =>
      if u = DATA_SOURCE_URL then FetchOutcome.resp 302 "redirect" else FetchOutcome.exn
  , parseXml := fun _ => none
  , parseHtml := fun _ => []
  , now := 44 }

/-- Every fetch raises: the total-failure cycle. -/
def envFail : Env :=
  { fetch := fun _ => FetchOutcome.exn
  , parseXml := fun _ => none
  , parseHtml := fun _ => []
  , now := 55 }

/-- A populated session-state cache. -/
def stCache : SvcState :=
  { last_fetch_ok := true, last_session_name := some "Heat 2", last_flag := some "GREEN"
  , last_remaining := some 300 }

/-- XML probes fail, HTML fetch succeeds (empty document). -/
def envHtmlOk : Env :=
  { fetch := fun u =>
      if u = DATA_SOURCE_URL then FetchOutcome.resp 200 "<html></html>" else FetchOutcome.exn
  , parseXml := fun _ => none
  , parseHtml := fun _ => []
  , now := 66 }

/-- English-header table whose header row's only recognized keyword is
`drivers`; the car number lives under the synonym `n°`. -/
def tableC8E : HtmlTable := [[td "Drivers", td "N°"], [td "Alice", td "7"]]

/-- The same table with the French label `Pilotes`. -/
def tableC8F : HtmlTable := [[td "Pilotes", td "N°"], [td "Alice", td "7"]]

/-- English/French header pair that still carries the `num` keyword. -/
def tableC8WE : HtmlTable := [[td "Num", td "Drivers"], [td "7", td "Alice"]]

def tableC8WF : HtmlTable := [[td "Num", td "Pilotes"], [td "7", td "Alice"]]

def ciC6 : ColIdx := buildColIdx ["num", "drivers"]

def rowC6 : HtmlRow := [td "", td "Ghost"]

def rowC6b : HtmlRow := [td "5", td "Bob"]

def nodeC6 : XNode := XNode.node "ligne" none [XNode.node "team" (some "Ghost Racing") []]

def nodeC6b : XNode :=
  XNode.node "ligne" none [XNode.node "num" (some "9") [], XNode.node "team" (some "T9") []]

theorem takeWhile_all_eq (p : Char → Bool) (l : List Char) (hl : ∀ x ∈ l, p x = true) :
    l.takeWhile p = l ∧ l.dropWhile p = [] := by
  induction l with
  | nil => simp
  | cons a t ih =>
    have ha : p a = true := hl a (by simp)
    have ih2 := ih (fun x hx => hl x (by simp [hx]))
    simp [List.takeWhile_cons, List.dropWhile_cons, ha, ih2.1, ih2.2]

theorem takeWhile_append_stop (p : Char → Bool) (l : List Char) (c : Char) (r : List Char)
    (hl : ∀ x ∈ l, p x = true) (hc : p c = false) :
    (l ++ c :: r).takeWhile p = l ∧ (l ++ c :: r).dropWhile p = c :: r := by
  induction l with
  | nil => simp [List.takeWhile_cons, List.dropWhile_cons, hc]
  | cons a t ih =>
    have ha : p a = true := hl a (by simp)
    have ih2 := ih (fun x hx => hl x (by simp [hx]))
    simp [List.takeWhile_cons, List.dropWhile_cons, ha, ih2.1, ih2.2]

theorem dropWhile_head_false (p : Char → Bool) (cs : List Char) (c : Char) (r : List Char)
    (h : cs.dropWhile p = c :: r) : p c = false := by
  induction cs with
  | nil => simp [List.dropWhile] at h
  | cons a t ih =>
    by_cases ha : p a = true
    · rw [List.dropWhile_cons_of_pos ha] at h; exact ih h
    · rw [List.dropWhile_cons_of_neg (by simpa using ha)] at h
      cases h; simpa using ha

theorem mem_takeWhile_digit (cs : List Char) :
    ∀ x ∈ cs.takeWhile isDigitB, isDigitB x = true := by
  intro x hx
  exact List.mem_takeWhile_imp hx

theorem fracCheck_iff (fs : List Char) (mil : Nat) :
    fracCheck fs = some mil ↔
      (allDigits fs = true ∧ fs ≠ [] ∧ fs.length ≤ 3 ∧ mil = digitsVal (padTo3 fs)) := by
  constructor
  · intro h
    unfold fracCheck at h
    split at h
    case isFalse => exact absurd h (by simp)
    case isTrue hc =>
      obtain ⟨hdw, hge, hle⟩ := hc
      have hsp := (List.takeWhile_append_dropWhile (p := isDigitB) (l := fs)).symm
      rw [hdw] at hsp
      simp only [List.append_nil] at hsp
      have hall : allDigits fs = true := by
        rw [hsp]
        simp only [allDigits, List.all_eq_true]
        exact fun x hx => List.mem_takeWhile_imp hx
      have hmil : mil = digitsVal (padTo3 (fs.takeWhile isDigitB)) := (Option.some.inj h).symm
      rw [← hsp] at hmil hle
      refine ⟨hall, ?_, hle, hmil⟩
      intro hnil
      subst hnil
      simp at hge
  · rintro ⟨hall, hne, hle, hmil⟩
    have htw : fs.takeWhile isDigitB = fs ∧ fs.dropWhile isDigitB = [] := by
      apply takeWhile_all_eq
      intro x hx
      simp only [allDigits, List.all_eq_true] at hall
      exact hall x hx
    unfold fracCheck
    rw [htw.1, htw.2, if_pos ⟨rfl, List.length_pos.mpr hne, hle⟩, hmil]

theorem matchSecFrac_iff (cs : List Char) (sc mil : Nat) :
    matchSecFrac cs = some (sc, mil) ↔
    ∃ secs hasFrac sep frac, LapDecomp cs false [] secs hasFrac sep frac ∧
      sc = digitsVal secs ∧ mil = digitsVal (padTo3 frac) := by
  constructor
  · intro h
    have hsp := (List.takeWhile_append_dropWhile (p := isDigitB) (l := cs)).symm
    have hall : ∀ x ∈ cs.takeWhile isDigitB, isDigitB x = true :=
      fun x hx => List.mem_takeWhile_imp hx
    unfold matchSecFrac secTail at h
    rcases hdw : cs.dropWhile isDigitB with _ | ⟨c, fs⟩
    · rw [hdw] at h hsp
      simp only [List.append_nil] at hsp
      split at h
      case isFalse => exact absurd h (by simp)
      case isTrue hlen =>
        have h2 : some (digitsVal (cs.takeWhile isDigitB), 0) = some (sc, mil) := h
        simp only [Option.some.injEq, Prod.mk.injEq] at h2
        refine ⟨cs.takeWhile isDigitB, false, '.', [], ?_, h2.1.symm, ?_⟩
        · refine ⟨?_, by simp, by simp, ?_, ?_, ?_, by simp, fun _ => ⟨rfl, rfl⟩⟩
          · simpa [optMinPart, optFracPart] using hsp
          · intro hn; rw [hn] at hlen; simp at hlen
          · rcases hlen with hl | hl <;> omega
          · simp only [allDigits, List.all_eq_true]; exact hall
        · rw [← h2.2]; decide
    · rw [hdw] at h hsp
      split at h
      case isFalse => exact absurd h (by simp)
      case isTrue hlen =>
        have h2 : (if c = '.' ∨ c = ',' then
            Option.map (fun m => (digitsVal (cs.takeWhile isDigitB), m)) (fracCheck fs)
          else none) = some (sc, mil) := h
        split at h2
        case isFalse => exact absurd h2 (by simp)
        case isTrue hsep =>
          obtain ⟨mil0, hm, heq⟩ := Option.map_eq_some'.mp h2
          simp only [Prod.mk.injEq] at heq
          obtain ⟨hfall, hfne, hfle, hfmil⟩ := (fracCheck_iff fs mil0).mp hm
          refine ⟨cs.takeWhile isDigitB, true, c, fs, ?_, heq.1.symm, ?_⟩
          · refine ⟨?_, by simp, by simp, ?_, ?_, ?_, fun _ => ⟨hsep, hfne, hfle, hfall⟩, by simp⟩
            · simpa [optMinPart, optFracPart] using hsp
            · intro hn; rw [hn] at hlen; simp at hlen
            · rcases hlen with hl | hl <;> omega
            · simp only [allDigits, List.all_eq_true]; exact hall
          · rw [← heq.2, hfmil]
  · rintro ⟨secs, hasFrac, sep, frac, ⟨hcs, _hm1, _hm2, hne, hlen2, hdig, hfr, hnfr⟩, hsc, hmil⟩
    have hdig2 : ∀ x ∈ secs, isDigitB x = true := by
      simp only [allDigits, List.all_eq_true] at hdig; exact hdig
    have hlenOK : secs.length = 1 ∨ secs.length = 2 := by
      have := List.length_pos.mpr hne; omega
    cases hasFrac with
    | false =>
      obtain ⟨hfnil, -⟩ := hnfr rfl
      subst hfnil
      simp only [optMinPart, optFracPart] at hcs
      simp at hcs
      rw [hcs]
      have htw := takeWhile_all_eq isDigitB secs hdig2
      unfold matchSecFrac secTail
      rw [htw.1, htw.2, if_pos hlenOK]
      subst hsc
      have hz : digitsVal (padTo3 []) = 0 := by decide
      rw [hz] at hmil
      subst hmil
      rfl
    | true =>
      obtain ⟨hsep, hfne, hfle, hfdig⟩ := hfr rfl
      simp [optMinPart, optFracPart] at hcs
      rw [hcs]
      have hsepd : isDigitB sep = false := by
        rcases hsep with h | h <;> subst h <;> decide
      have hsp2 := takeWhile_append_stop isDigitB secs sep frac hdig2 hsepd
      unfold matchSecFrac secTail
      rw [hsp2.1, hsp2.2, if_pos hlenOK]
      have hfc : fracCheck frac = some (digitsVal (padTo3 frac)) :=
        (fracCheck_iff _ _).mpr ⟨hfdig, hfne, hfle, rfl⟩
      show (if sep = '.' ∨ sep = ',' then
          Option.map (fun m => (digitsVal secs, m)) (fracCheck frac)
        else none) = some (sc, mil)
      rw [if_pos hsep, hfc, Option.map_some', hsc, hmil]

theorem matchLap_noMin (cs : List Char)
    (hhd : ∀ r, cs.dropWhile isDigitB = ':' :: r → False) :
    matchLap cs = (matchSecFrac cs).map (fun p => ((0 : Nat), p.1, p.2)) := by
  have hsp := (List.takeWhile_append_dropWhile (p := isDigitB) (l := cs)).symm
  unfold matchLap
  rcases hdw : cs.dropWhile isDigitB with _ | ⟨c, r2⟩
  · rw [hdw] at hsp
    simp only [List.append_nil] at hsp
    simp only [matchLapAux]
    rw [← hsp]
  · have hc : ¬ c = ':' := fun hceq => hhd r2 (hceq ▸ hdw)
    rw [hdw] at hsp
    simp only [matchLapAux, if_neg hc]
    rw [← hsp]

theorem matchLap_min (cs : List Char) (r : List Char) (hdw : cs.dropWhile isDigitB = ':' :: r)
    (hd0 : cs.takeWhile isDigitB ≠ []) :
    matchLap cs =
      (matchSecFrac r).map (fun p => (digitsVal (cs.takeWhile isDigitB), p.1, p.2)) := by
  unfold matchLap
  rw [hdw]
  simp [matchLapAux, hd0]

theorem matchLap_iff (cs : List Char) (mn sc mil : Nat) :
    matchLap cs = some (mn, sc, mil) ↔
    ∃ hasMin mins secs hasFrac sep frac, LapDecomp cs hasMin mins secs hasFrac sep frac ∧
      mn = digitsVal mins ∧ sc = digitsVal secs ∧ mil = digitsVal (padTo3 frac) := by
  constructor
  · intro h
    have hsp := (List.takeWhile_append_dropWhile (p := isDigitB) (l := cs)).symm
    have hall : ∀ x ∈ cs.takeWhile isDigitB, isDigitB x = true :=
      fun x hx => List.mem_takeWhile_imp hx
    rcases hdw : cs.dropWhile isDigitB with _ | ⟨c, r2⟩
    · rw [matchLap_noMin cs (fun r hr => by rw [hdw] at hr; exact absurd hr (by simp))] at h
      obtain ⟨⟨s0, m0⟩, hm, heq⟩ := Option.map_eq_some'.mp h
      simp only [Prod.mk.injEq] at heq
      obtain ⟨secs, hasFrac, sep, frac, hdec, hs, hm2⟩ := (matchSecFrac_iff _ _ _).mp hm
      refine ⟨false, [], secs, hasFrac, sep, frac, hdec, ?_, ?_, ?_⟩
      · rw [← heq.1]; rfl
      · rw [← heq.2.1]; exact hs
      · rw [← heq.2.2]; exact hm2
    · by_cases hc : c = ':'
      · subst hc
        by_cases hd0 : cs.takeWhile isDigitB = []
        · have hnone : matchLap cs = none := by
            unfold matchLap
            rw [hdw, hd0]
            simp [matchLapAux]
          rw [hnone] at h
          exact absurd h (by simp)
        · rw [matchLap_min cs r2 hdw hd0] at h
          obtain ⟨⟨s0, m0⟩, hm, heq⟩ := Option.map_eq_some'.mp h
          simp only [Prod.mk.injEq] at heq
          obtain ⟨secs, hasFrac, sep, frac, hdec, hs, hm2⟩ := (matchSecFrac_iff _ _ _).mp hm
          obtain ⟨hr2, -, -, hne, hlen2, hdig, hfr, hnfr⟩ := hdec
          refine ⟨true, cs.takeWhile isDigitB, secs, hasFrac, sep, frac, ?_, ?_, ?_, ?_⟩
          · refine ⟨?_, fun _ => ⟨hd0, by simp only [allDigits, List.all_eq_true]; exact hall⟩,
              by simp, hne, hlen2, hdig, hfr, hnfr⟩
            conv_lhs => rw [hsp, hdw, hr2]
            simp [optMinPart, optFracPart, List.append_assoc]
          · rw [← heq.1]
          · rw [← heq.2.1]; exact hs
          · rw [← heq.2.2]; exact hm2
      · rw [matchLap_noMin cs (fun r hr => by
          rw [hdw] at hr
          injection hr with h1 h2
          exact hc h1)] at h
        obtain ⟨⟨s0, m0⟩, hm, heq⟩ := Option.map_eq_some'.mp h
        simp only [Prod.mk.injEq] at heq
        obtain ⟨secs, hasFrac, sep, frac, hdec, hs, hm2⟩ := (matchSecFrac_iff _ _ _).mp hm
        refine ⟨false, [], secs, hasFrac, sep, frac, hdec, ?_, ?_, ?_⟩
        · rw [← heq.1]; rfl
        · rw [← heq.2.1]; exact hs
        · rw [← heq.2.2]; exact hm2
  · rintro ⟨hasMin, mins, secs, hasFrac, sep, frac, ⟨hcs, hm1, hm2, hne, hlen2, hdig, hfr, hnfr⟩,
      hmn, hsc, hmil⟩
    have hdig2 : ∀ x ∈ secs, isDigitB x = true := by
      simp only [allDigits, List.all_eq_true] at hdig; exact hdig
    have hsecdec : LapDecomp (secs ++ optFracPart hasFrac sep frac) false [] secs hasFrac sep frac :=
      ⟨by simp [optMinPart], by simp, fun _ => rfl, hne, hlen2, hdig, hfr, hnfr⟩
    have hsecmatch :
        matchSecFrac (secs ++ optFracPart hasFrac sep frac) =
          some (digitsVal secs, digitsVal (padTo3 frac)) :=
      (matchSecFrac_iff _ _ _).mpr ⟨secs, hasFrac, sep, frac, hsecdec, rfl, rfl⟩
    cases hasMin with
    | false =>
      have hmnil : mins = [] := hm2 rfl
      subst hmnil
      have hcs2 : cs = secs ++ optFracPart hasFrac sep frac := by
        rw [hcs]; simp [optMinPart]
      have hnocolon : ∀ r, cs.dropWhile isDigitB = ':' :: r → False := by
        intro r hr
        cases hasFrac with
        | false =>
          obtain ⟨hfnil, -⟩ := hnfr rfl
          have hdwnil : cs.dropWhile isDigitB = [] := by
            rw [hcs2, hfnil]
            simpa [optFracPart] using (takeWhile_all_eq isDigitB secs hdig2).2
          rw [hdwnil] at hr
          exact absurd hr (by simp)
        | true =>
          obtain ⟨hsep, -, -, -⟩ := hfr rfl
          have hsepd : isDigitB sep = false := by
            rcases hsep with hx | hx <;> subst hx <;> decide
          have hdwsep : cs.dropWhile isDigitB = sep :: frac := by
            rw [hcs2]
            have := (takeWhile_append_stop isDigitB secs sep frac hdig2 hsepd).2
            simpa [optFracPart] using this
          rw [hdwsep] at hr
          injection hr with hx1 hx2
          subst hx1
          rcases hsep with hx | hx <;> exact absurd hx (by decide)
      rw [matchLap_noMin cs hnocolon, hcs2, hsecmatch]
      simp only [Option.map_some']
      rw [hmn, hsc, hmil]
      rfl
    | true =>
      obtain ⟨hmne, hmdig⟩ := hm1 rfl
      have hmdig2 : ∀ x ∈ mins, isDigitB x = true := by
        simp only [allDigits, List.all_eq_true] at hmdig; exact hmdig
      have hcs2 : cs = mins ++ ':' :: (secs ++ optFracPart hasFrac sep frac) := by
        rw [hcs]; simp [optMinPart, List.append_assoc]
      have hsp2 := takeWhile_append_stop isDigitB mins ':' (secs ++ optFracPart hasFrac sep frac)
        hmdig2 (by decide)
      have hdw2 : cs.dropWhile isDigitB = ':' :: (secs ++ optFracPart hasFrac sep frac) := by
        rw [hcs2]; exact hsp2.2
      have htw2 : cs.takeWhile isDigitB = mins := by
        rw [hcs2]; exact hsp2.1
      rw [matchLap_min cs (secs ++ optFracPart hasFrac sep frac) hdw2
        (by rw [htw2]; exact hmne), hsecmatch, htw2]
      simp only [Option.map_some']
      rw [hmn, hsc, hmil]

theorem LapDecomp_ne_nil {cs : List Char} {hasMin : Bool} {mins secs : List Char} {hasFrac : Bool}
    {sep : Char} {frac : List Char} (h : LapDecomp cs hasMin mins secs hasFrac sep frac) :
    cs ≠ [] := by
  obtain ⟨hcs, -, -, hne, -, -, -, -⟩ := h
  rw [hcs]
  intro hnil
  rcases List.append_eq_nil.mp hnil with ⟨h1, -⟩
  rcases List.append_eq_nil.mp h1 with ⟨-, h2⟩
  exact hne h2

theorem LapDecomp_head_digit {cs : List Char} {hasMin : Bool} {mins secs : List Char}
    {hasFrac : Bool} {sep : Char} {frac : List Char}
    (h : LapDecomp cs hasMin mins secs hasFrac sep frac) :
    ∃ c r, cs = c :: r ∧ isDigitB c = true := by
  obtain ⟨hcs, hm1, hm2, hne, -, hdig, -, -⟩ := h
  cases hasMin with
  | false =>
    have hmnil := hm2 rfl
    subst hmnil
    rcases hsecs : secs with _ | ⟨a, t⟩
    · exact absurd hsecs hne
    · refine ⟨a, t ++ optFracPart hasFrac sep frac, ?_, ?_⟩
      · rw [hcs, hsecs]; simp [optMinPart]
      · rw [hsecs] at hdig
        simp [allDigits] at hdig
        exact hdig.1
  | true =>
    obtain ⟨hmne, hmdig⟩ := hm1 rfl
    rcases hmins : mins with _ | ⟨a, t⟩
    · exact absurd hmins hmne
    · refine ⟨a, (t ++ [':']) ++ secs ++ optFracPart hasFrac sep frac, ?_, ?_⟩
      · rw [hcs, hmins]; simp [optMinPart]
      · rw [hmins] at hmdig
        simp [allDigits] at hmdig
        exact hmdig.1

/-- Claim C2: for every input string, `_parse_lap_time` returns a value exactly when
the stripped text matches the grammar `[minutes ':'] seconds[.or, fraction]`
(1+ digit minutes, 1-2 digit seconds, 1-3 digit fraction), and the value is
`minutes*60 + seconds + millis/1000` with the fraction right-padded to three
digits; empty text, whitespace-only text, the sentinels and any non-matching
text give `none`.  Totality in Lean models "never raises". -/
theorem c2_lap_time_normalizer (s : String) (v : ℚ) :
    _parse_lap_time s = some v ↔
      ∃ hasMin mins secs hasFrac sep frac,
        LapDecomp (stripChars s.data) hasMin mins secs hasFrac sep frac ∧
        v = (digitsVal mins : ℚ) * 60 + (digitsVal secs : ℚ) +
            (digitsVal (padTo3 frac) : ℚ) / 1000 := by
  by_cases h0 : s.data = []
  · rw [_parse_lap_time, if_pos h0]
    constructor
    · intro h; exact absurd h (by simp)
    · rintro ⟨hasMin, mins, secs, hasFrac, sep, frac, hdec, -⟩
      have := LapDecomp_ne_nil hdec
      rw [h0] at this
      exact absurd rfl this
  · by_cases hg : stripChars s.data = [] ∨ sentinels.contains (stripChars s.data)
    · rw [_parse_lap_time, if_neg h0, if_pos hg]
      constructor
      · intro h; exact absurd h (by simp)
      · rintro ⟨hasMin, mins, secs, hasFrac, sep, frac, hdec, -⟩
        obtain ⟨c, r, hcr, hcd⟩ := LapDecomp_head_digit hdec
        rcases hg with hnil | hsent
        · exact absurd hnil (LapDecomp_ne_nil hdec)
        · have hsent2 : stripChars s.data ∈ sentinels := by
            simpa using hsent
          simp only [sentinels, List.mem_cons, List.mem_singleton, List.not_mem_nil,
            or_false] at hsent2
          rcases hsent2 with h1 | h1 | h1 | h1 <;>
            (rw [h1] at hcr; injection hcr with hc1 hc2; subst hc1; exact absurd hcd (by decide))
    · rw [_parse_lap_time, if_neg h0, if_neg hg]
      constructor
      · intro h
        obtain ⟨⟨mn, sc, mil⟩, hm, hv⟩ := Option.map_eq_some'.mp h
        obtain ⟨hasMin, mins, secs, hasFrac, sep, frac, hdec, hmn, hsc, hmil⟩ :=
          (matchLap_iff _ _ _ _).mp hm
        refine ⟨hasMin, mins, secs, hasFrac, sep, frac, hdec, ?_⟩
        subst hmn hsc hmil
        rw [← hv]
        push_cast
        ring
      · rintro ⟨hasMin, mins, secs, hasFrac, sep, frac, hdec, hv⟩
        have hm : matchLap (stripChars s.data) =
            some (digitsVal mins, digitsVal secs, digitsVal (padTo3 frac)) :=
          (matchLap_iff _ _ _ _).mpr
            ⟨hasMin, mins, secs, hasFrac, sep, frac, hdec, rfl, rfl, rfl⟩
        rw [hm, Option.map_some']
        congr 1
        rw [hv]
        push_cast
        ring

theorem getRaceState_xml (env : Env) (st : SvcState) (n : XNode) (h : selectXml env = some n) :
    getRaceState env st = (Except.error PyExn.attributeError, st) := by
  unfold getRaceState
  rw [h]

theorem getRaceState_fail (env : Env) (st : SvcState) (hx : selectXml env = none)
    (hh : htmlFetch env = none) :
    getRaceState env st =
      (Except.ok { cars := [], session := cacheSession st env.now false },
       { st with last_fetch_ok := false }) := by
  unfold getRaceState
  rw [hx, hh]

theorem getRaceState_html (env : Env) (st : SvcState) (body : String)
    (hx : selectXml env = none) (hh : htmlFetch env = some body) :
    getRaceState env st =
      (Except.ok { cars := htmlExtract (env.parseHtml body)
                 , session := cacheSession st env.now true },
       { st with last_fetch_ok := true }) := by
  unfold getRaceState
  rw [hx, hh]

theorem processHtmlRow_none (ci : ColIdx) (r : HtmlRow) (h : htmlRowNum ci r = "") :
    processHtmlRow ci r = none := by
  simp [processHtmlRow, h]

theorem processHtmlRow_some_num (ci : ColIdx) (r : HtmlRow) (c : CarRow)
    (h : processHtmlRow ci r = some c) : c.num ≠ "" := by
  unfold processHtmlRow at h
  split at h
  · exact absurd h (by simp)
  · split at h
    · exact absurd h (by simp)
    case isFalse hnum =>
      rw [← Option.some.inj h]
      exact hnum

theorem processXmlNode_none (n : XNode) (h : xmlNodeNum n = "") : processXmlNode n = none := by
  unfold processXmlNode
  rw [if_pos h]

theorem processXmlNode_some_num (n : XNode) (c : CarRow) (h : processXmlNode n = some c) :
    c.num ≠ "" := by
  unfold processXmlNode at h
  split at h
  · exact absurd h (by simp)
  case isFalse hnum =>
    rw [← Option.some.inj h]
    exact hnum

theorem htmlExtract_all_num (tables : List HtmlTable) :
    ∀ c ∈ htmlExtract tables, c.num ≠ "" := by
  intro c hc
  unfold htmlExtract at hc
  rcases h1 : locateTable tables with _ | t
  · simp [h1] at hc
  · simp only [h1] at hc
    rcases h2 : findHeaderIdx t with _ | i
    · simp [h2] at hc
    · simp only [h2] at hc
      simp only [htmlDataCars, List.mem_filterMap] at hc
      obtain ⟨row, -, hrow⟩ := hc
      exact processHtmlRow_some_num _ _ _ hrow

/-- Claim C4 (amended): in every cycle in which all XML candidate attempts
fail (no XML document is selected) and the HTML fetch raises or returns a
4xx/5xx status (the statuses `raise_for_status` raises for), the cycle emits
`cars = []`, `source_ok = false`, `clock` = the current time, and the sticky
fields name/flag/remaining taken unchanged from the cache (name falling back
to `2CVRT` and flag to the empty string when the cache is empty).  The
original claim said "non-2xx"; `c4_non2xx_counterexample` shows a 302 is
processed as a success. -/
theorem c4_total_failure (env : Env) (st : SvcState)
    (hx : selectXml env = none)
    (hh : env.fetch DATA_SOURCE_URL = FetchOutcome.exn ∨
      ∃ code body, env.fetch DATA_SOURCE_URL = FetchOutcome.resp code body ∧
        400 ≤ code ∧ code < 600) :
    getRaceState env st =
      (Except.ok { cars := []
                 , session := { name := pyOrOpt st.last_session_name "2CVRT"
                              , flag := pyOrOpt st.last_flag ""
                              , remaining := st.last_remaining
                              , clock := env.now
                              , source_ok := false } },
       { st with last_fetch_ok := false }) := by
  have hfetch : htmlFetch env = none := by
    unfold htmlFetch
    rcases hh with hexn | ⟨code, body, hresp, h4, h6⟩
    · rw [hexn]
    · simp [hresp, h4, h6]
  rw [getRaceState_fail env st hx hfetch]
  rfl

/-- Claim C5: every cycle that ends in the fetch-failure outcome
(`source_ok = false`) leaves the Session-State Cache fields
`_last_session_name`, `_last_flag`, `_last_remaining` identical before and
after the cycle. -/
theorem c5_failure_preserves_cache (env : Env) (st : SvcState) (rs : RaceState) (st2 : SvcState)
    (h : getRaceState env st = (Except.ok rs, st2)) (hf : rs.session.source_ok = false) :
    st2.last_session_name = st.last_session_name ∧ st2.last_flag = st.last_flag ∧
      st2.last_remaining = st.last_remaining := by
  rcases hsel : selectXml env with _ | n
  · rcases hfet : htmlFetch env with _ | body
    · rw [getRaceState_fail env st hsel hfet] at h
      simp only [Prod.mk.injEq] at h
      rw [← h.2]
      exact ⟨rfl, rfl, rfl⟩
    · rw [getRaceState_html env st body hsel hfet] at h
      simp only [Prod.mk.injEq] at h
      rw [← Except.ok.inj h.1] at hf
      simp [cacheSession] at hf
  · rw [getRaceState_xml env st n hsel] at h
    simp only [Prod.mk.injEq] at h
    exact absurd h.1 (by simp)

/-- Claim C9: each sticky cache field is only ever assigned a truthy value
(non-empty string for name/flag, non-`none` for remaining), so once a field
holds a non-empty value no later cycle resets it to `none` or empty.  In
this code the guarded update (lines 370-376) is reachable only with the
session locals still `None`, so each field is in fact preserved verbatim,
which the first three conjuncts record and the last three turn into the
claimed non-downgrade property. -/
theorem c9_cache_monotone (env : Env) (st : SvcState) :
    ((getRaceState env st).2.last_session_name = st.last_session_name ∨
      ∃ v, v ≠ "" ∧ (getRaceState env st).2.last_session_name = some v) ∧
    ((getRaceState env st).2.last_flag = st.last_flag ∨
      ∃ v, v ≠ "" ∧ (getRaceState env st).2.last_flag = some v) ∧
    ((getRaceState env st).2.last_remaining = st.last_remaining ∨
      ∃ v, (getRaceState env st).2.last_remaining = some v) ∧
    (∀ v, st.last_session_name = some v → v ≠ "" →
      ∃ w, (getRaceState env st).2.last_session_name = some w ∧ w ≠ "") ∧
    (∀ v, st.last_flag = some v → v ≠ "" →
      ∃ w, (getRaceState env st).2.last_flag = some w ∧ w ≠ "") ∧
    (∀ v, st.last_remaining = some v → ∃ w, (getRaceState env st).2.last_remaining = some w) := by
  have key : (getRaceState env st).2.last_session_name = st.last_session_name ∧
      (getRaceState env st).2.last_flag = st.last_flag ∧
      (getRaceState env st).2.last_remaining = st.last_remaining := by
    rcases hsel : selectXml env with _ | n
    · rcases hfet : htmlFetch env with _ | body
      · rw [getRaceState_fail env st hsel hfet]
        exact ⟨rfl, rfl, rfl⟩
      · rw [getRaceState_html env st body hsel hfet]
        exact ⟨rfl, rfl, rfl⟩
    · rw [getRaceState_xml env st n hsel]
      exact ⟨rfl, rfl, rfl⟩
  refine ⟨Or.inl key.1, Or.inl key.2.1, Or.inl key.2.2, ?_, ?_, ?_⟩
  · intro v hv hne
    exact ⟨v, by rw [key.1]; exact hv, hne⟩
  · intro v hv hne
    exact ⟨v, by rw [key.2.1]; exact hv, hne⟩
  · intro v hv
    exact ⟨v, by rw [key.2.2]; exact hv⟩

/-- Claim C6: a data row (HTML path) or candidate car node (XML path) whose
resolved car-number field is empty contributes nothing to the extracted car
list — deleting it from the input leaves the extraction unchanged, it is
never emitted as a blank record and never an error — and every car the
extraction (and the whole cycle, when it returns) emits has a non-empty
number. -/
theorem c6_empty_num_skipped (ci : ColIdx) (pre post : List HtmlRow) (r : HtmlRow)
    (xpre xpost : List XNode) (n : XNode) (env : Env) (st : SvcState)
    (hr : htmlRowNum ci r = "") (hn : xmlNodeNum n = "") :
    htmlDataCars ci (pre ++ r :: post) = htmlDataCars ci (pre ++ post) ∧
    xmlCarsOf (xpre ++ n :: xpost) = xmlCarsOf (xpre ++ xpost) ∧
    (∀ c ∈ htmlDataCars ci (pre ++ r :: post), c.num ≠ "") ∧
    (∀ c ∈ xmlCarsOf (xpre ++ n :: xpost), c.num ≠ "") ∧
    (∀ rs st2, getRaceState env st = (Except.ok rs, st2) → ∀ c ∈ rs.cars, c.num ≠ "") := by
  refine ⟨?_, ?_, ?_, ?_, ?_⟩
  · simp [htmlDataCars, List.filterMap_append, List.filterMap_cons, processHtmlRow_none ci r hr]
  · simp [xmlCarsOf, List.filterMap_append, List.filterMap_cons, processXmlNode_none n hn]
  · intro c hc
    simp only [htmlDataCars, List.mem_filterMap] at hc
    obtain ⟨row, -, hrow⟩ := hc
    exact processHtmlRow_some_num _ _ _ hrow
  · intro c hc
    simp only [xmlCarsOf, List.mem_filterMap] at hc
    obtain ⟨node, -, hnode⟩ := hc
    exact processXmlNode_some_num _ _ hnode
  · intro rs st2 h c hc
    rcases hsel : selectXml env with _ | m
    · rcases hfet : htmlFetch env with _ | body
      · rw [getRaceState_fail env st hsel hfet] at h
        simp only [Prod.mk.injEq] at h
        rw [← Except.ok.inj h.1] at hc
        simp at hc
      · rw [getRaceState_html env st body hsel hfet] at h
        simp only [Prod.mk.injEq] at h
        rw [← Except.ok.inj h.1] at hc
        exact htmlExtract_all_num _ c hc
    · rw [getRaceState_xml env st m hsel] at h
      simp only [Prod.mk.injEq] at h
      exact absurd h.1 (by simp)

theorem findIdxS_congr (a x y : String) (A B : List String) (hx : a ≠ x) (hy : a ≠ y) :
    findIdxS a (A ++ x :: B) = findIdxS a (A ++ y :: B) := by
  induction A with
  | nil => simp only [List.nil_append, findIdxS, if_neg (Ne.symm hx), if_neg (Ne.symm hy)]
  | cons b A ih => simp only [List.cons_append, findIdxS, List.append_eq]; rw [ih]

theorem findIdxS_not_mem (a : String) (L : List String) (h : a ∉ L) : findIdxS a L = none := by
  induction L with
  | nil => rfl
  | cons b t ih =>
    simp only [List.mem_cons, not_or] at h
    simp only [findIdxS, List.append_eq, if_neg (Ne.symm h.1), ih h.2, Option.map_none']

theorem findIdxS_at (a : String) (A B : List String) (hA : a ∉ A) :
    findIdxS a (A ++ a :: B) = some A.length := by
  induction A with
  | nil => simp [findIdxS]
  | cons b t ih =>
    simp only [List.mem_cons, not_or] at hA
    simp only [List.cons_append, findIdxS, List.append_eq, if_neg (Ne.symm hA.1), ih hA.2,
      Option.map_some', List.length_cons]

theorem idxOf_congr (x y : String) (A B : List String) (alts : List String)
    (h : ∀ a ∈ alts, a ≠ x ∧ a ≠ y) :
    idxOf (A ++ x :: B) alts = idxOf (A ++ y :: B) alts := by
  induction alts with
  | nil => rfl
  | cons a alts ih =>
    have ha := h a (by simp)
    have hrest : ∀ b ∈ alts, b ≠ x ∧ b ≠ y := fun b hb => h b (by simp [hb])
    simp only [idxOf]
    rw [findIdxS_congr a x y A B ha.1 ha.2]
    cases h2 : findIdxS a (A ++ y :: B) with
    | none => exact ih hrest
    | some i => rfl

theorem idxOf_drivers (A B : List String)
    (h : ∀ s ∈ A ++ B, s ≠ "drivers" ∧ s ≠ "driver" ∧ s ≠ "pilote" ∧ s ≠ "pilotes") :
    idxOf (A ++ "drivers" :: B) ["drivers", "driver", "pilote", "pilotes"] = some A.length ∧
    idxOf (A ++ "pilotes" :: B) ["drivers", "driver", "pilote", "pilotes"] = some A.length := by
  have hA : ∀ s ∈ A, s ≠ "drivers" ∧ s ≠ "driver" ∧ s ≠ "pilote" ∧ s ≠ "pilotes" :=
    fun s hs => h s (List.mem_append_left _ hs)
  have hB : ∀ s ∈ B, s ≠ "drivers" ∧ s ≠ "driver" ∧ s ≠ "pilote" ∧ s ≠ "pilotes" :=
    fun s hs => h s (List.mem_append_right _ hs)
  constructor
  · simp only [idxOf]
    rw [findIdxS_at "drivers" A B (fun hmem => (hA _ hmem).1 rfl)]
  · have h1 : findIdxS "drivers" (A ++ "pilotes" :: B) = none := by
      apply findIdxS_not_mem
      simp only [List.mem_append, List.mem_cons, not_or]
      exact ⟨fun hm => (hA _ hm).1 rfl, by decide, fun hm => (hB _ hm).1 rfl⟩
    have h2 : findIdxS "driver" (A ++ "pilotes" :: B) = none := by
      apply findIdxS_not_mem
      simp only [List.mem_append, List.mem_cons, not_or]
      exact ⟨fun hm => (hA _ hm).2.1 rfl, by decide, fun hm => (hB _ hm).2.1 rfl⟩
    have h3 : findIdxS "pilote" (A ++ "pilotes" :: B) = none := by
      apply findIdxS_not_mem
      simp only [List.mem_append, List.mem_cons, not_or]
      exact ⟨fun hm => (hA _ hm).2.2.1 rfl, by decide, fun hm => (hB _ hm).2.2.1 rfl⟩
    have h4 : findIdxS "pilotes" (A ++ "pilotes" :: B) = some A.length :=
      findIdxS_at "pilotes" A B (fun hmem => (hA _ hmem).2.2.2 rfl)
    simp only [idxOf, h1, h2, h3, h4]

theorem buildColIdx_swap (A B : List String)
    (h : ∀ s ∈ A ++ B, s ≠ "drivers" ∧ s ≠ "driver" ∧ s ≠ "pilote" ∧ s ≠ "pilotes") :
    buildColIdx (A ++ "drivers" :: B) = buildColIdx (A ++ "pilotes" :: B) := by
  have hcongr : ∀ alts, (∀ a ∈ alts, a ≠ "drivers" ∧ a ≠ "pilotes") →
      idxOf (A ++ "drivers" :: B) alts = idxOf (A ++ "pilotes" :: B) alts :=
    fun alts ha => idxOf_congr _ _ A B alts ha
  have hdr := idxOf_drivers A B h
  unfold buildColIdx
  rw [hcongr ["pos", "position"] (by decide),
      hcongr ["now", "state", "status"] (by decide),
      hcongr ["num", "#", "car", "n°", "nº"] (by decide),
      hcongr ["team", "name"] (by decide),
      hdr.1, hdr.2,
      hcongr ["last", "last time", "last lap", "dernier", "dernier tour"] (by decide),
      hcongr ["best", "best time", "best lap", "meilleur", "meilleur tour"] (by decide),
      hcongr ["lap", "laps", "tour", "tours"] (by decide),
      hcongr ["gap", "ecart", "écart"] (by decide)]

/-- Claim C8 (amended): swapping a header cell `drivers` for `pilotes` (all
other cells equal) leaves the extraction — and hence every emitted driver
field — unchanged, provided the document still locates the same table and
detects the same header row (some other header cell carries a recognized
keyword; a `drivers`-only header is no longer detected, see
`c8_header_detection_counterexample`) and no other header cell is one of the
driver synonyms. -/
theorem c8_pilotes_drivers (tables tables2 : List HtmlTable) (t t2 : HtmlTable) (i : Nat)
    (A B : List String)
    (h1 : locateTable tables = some t) (h2 : locateTable tables2 = some t2)
    (h3 : findHeaderIdx t = some i) (h4 : findHeaderIdx t2 = some i)
    (h5 : headerLabels (t.getD i []) = A ++ "drivers" :: B)
    (h6 : headerLabels (t2.getD i []) = A ++ "pilotes" :: B)
    (h7 : t.drop (i + 1) = t2.drop (i + 1))
    (h8 : ∀ s ∈ A ++ B, s ≠ "drivers" ∧ s ≠ "driver" ∧ s ≠ "pilote" ∧ s ≠ "pilotes") :
    htmlExtract tables = htmlExtract tables2 := by
  unfold htmlExtract
  simp only [h1, h2, h3, h4]
  rw [h5, h6, h7, buildColIdx_swap A B h8]

/-- Claim C1 (code bug): `Service.getRaceState` of the XML-capable module is
claimed never to raise, but on every cycle whose XML probe succeeds the
method evaluates `soup.find_all('table')` (line 222) with `soup = None` and
the escaping `AttributeError` reaches the caller instead of a RaceState. -/
theorem c1_xml_path_raises :
    getRaceState envC1 initState = (Except.error PyExn.attributeError, initState) := by rfl

/-- Claim C3 (code bug): in a cycle where the XML path is selected and the
probed tag names yield zero car rows, the claim expects an empty car list
with `source_ok = true`; the code instead raises `AttributeError` at line
222 before the XML extraction is ever reached. -/
theorem c3_xml_empty_rows_raises :
    carNodes rootC3 = [] ∧
    getRaceState envC3 initState = (Except.error PyExn.attributeError, initState) := by
  constructor
  · simp [carNodes, XNode.desc, descList, rootC3, carNodeTags, XNode.children, XNode.tag]
  · rfl

/-- Claim C7 (code bug): for a fixed XML source document, two back-to-back
cycles are claimed to yield identical car lists; in fact neither cycle
yields any RaceState at all — both raise `AttributeError` (and leave the
state unchanged, so the second cycle fails identically). -/
theorem c7_xml_cycle_yields_no_state :
    getRaceState envC7 initState = (Except.error PyExn.attributeError, initState) ∧
    getRaceState envC7 (getRaceState envC7 initState).2 =
      (Except.error PyExn.attributeError, initState) := by
  exact ⟨rfl, rfl⟩

/-- Claim C10: for the configured `DATA_SOURCE_URL`, the two derived XML
candidate URLs — whole-URL extension replacement and in-filename extension
replacement — evaluate to the same string, so at most one distinct XML URL
is probed per cycle. -/
theorem c10_xml_candidates_coincide :
    xmlCandidates DATA_SOURCE_URL =
      ["https://results.ris-timing.be/2cvrt/live/live2025.xml",
       "https://results.ris-timing.be/2cvrt/live/live2025.xml"] := by rfl

/-- Witness for C2 at the spec example input. -/
theorem c2_lap_time_normalizer_witness :
    _parse_lap_time "1:23.456" = some (83.456 : ℚ) := by
  have h := (c2_lap_time_normalizer "1:23.456" (83.456 : ℚ)).mpr
    ⟨true, ['1'], ['2', '3'], true, '.', ['4', '5', '6'], by unfold LapDecomp; decide, by
      have h1 : digitsVal ['1'] = 1 := by decide
      have h2 : digitsVal ['2', '3'] = 23 := by decide
      have h3 : digitsVal (padTo3 ['4', '5', '6']) = 456 := by decide
      rw [h1, h2, h3]
      norm_num⟩
  exact h

/-- Witness for C4 at a concrete total-failure cycle with a populated cache. -/
theorem c4_total_failure_witness :
    getRaceState envFail stCache =
      (Except.ok { cars := []
                 , session := { name := pyOrOpt stCache.last_session_name "2CVRT"
                              , flag := pyOrOpt stCache.last_flag ""
                              , remaining := stCache.last_remaining
                              , clock := envFail.now
                              , source_ok := false } },
       { stCache with last_fetch_ok := false }) :=
  c4_total_failure envFail stCache rfl (Or.inl rfl)

/-- Counterexample to C4 as stated: all XML candidates fail and the HTML
fetch returns the non-2xx status 302, yet the cycle emits
`source_ok = true` (the body is processed as a success), not the claimed
failure record. -/
theorem c4_non2xx_counterexample :
    envC4ce.fetch DATA_SOURCE_URL = FetchOutcome.resp 302 "redirect" ∧
    selectXml envC4ce = none ∧
    getRaceState envC4ce stCache =
      (Except.ok { cars := []
                 , session := { name := "Heat 2", flag := "GREEN", remaining := some 300
                              , clock := 44, source_ok := true } },
       { last_fetch_ok := true, last_session_name := some "Heat 2", last_flag := some "GREEN"
       , last_remaining := some 300 }) := by
  exact ⟨by rfl, by rfl, by rfl⟩

/-- Witness for C5 at a concrete failing cycle. -/
theorem c5_failure_preserves_cache_witness :
    ∃ rs st2, getRaceState envFail stCache = (Except.ok rs, st2) ∧
      rs.session.source_ok = false ∧
      st2.last_session_name = stCache.last_session_name ∧ st2.last_flag = stCache.last_flag ∧
      st2.last_remaining = stCache.last_remaining := by
  refine ⟨{ cars := []
          , session := { name := "Heat 2", flag := "GREEN", remaining := some 300
                       , clock := 55, source_ok := false } },
    { last_fetch_ok := false, last_session_name := some "Heat 2", last_flag := some "GREEN"
    , last_remaining := some 300 }, by rfl, rfl, ?_⟩
  exact c5_failure_preserves_cache envFail stCache _ _ (by rfl) rfl

/-- Witness for C6 at concrete rows and nodes with empty numbers. -/
theorem c6_empty_num_skipped_witness :
    htmlDataCars ciC6 ([] ++ rowC6 :: [rowC6b]) = htmlDataCars ciC6 ([] ++ [rowC6b]) ∧
    xmlCarsOf ([] ++ nodeC6 :: [nodeC6b]) = xmlCarsOf ([] ++ [nodeC6b]) :=
  ⟨(c6_empty_num_skipped ciC6 [] [rowC6b] rowC6 [] [nodeC6b] nodeC6 envHtmlOk stCache
      (by rfl) (by rfl)).1,
   (c6_empty_num_skipped ciC6 [] [rowC6b] rowC6 [] [nodeC6b] nodeC6 envHtmlOk stCache
      (by rfl) (by rfl)).2.1⟩

/-- Witness for C8 at a concrete header pair carrying the `num` keyword. -/
theorem c8_pilotes_drivers_witness :
    htmlExtract [tableC8WE] = htmlExtract [tableC8WF] :=
  c8_pilotes_drivers [tableC8WE] [tableC8WF] tableC8WE tableC8WF 0 ["num"] []
    (by rfl) (by rfl) (by rfl) (by rfl) (by rfl) (by rfl) (by rfl) (by decide)

/-- Counterexample to C8 as stated: a header row whose only recognized
keyword is the `drivers` label.  Both documents locate the same table, but
the `pilotes` variant no longer has a detectable header row, so the English
document emits a car with driver `Alice` while the French one emits
nothing. -/
theorem c8_header_detection_counterexample :
    locateTable [tableC8E] = some tableC8E ∧ locateTable [tableC8F] = some tableC8F ∧
    htmlExtract [tableC8E] =
      [{ num := "7", state := "", driver := "Alice", lastLap := none, bestLap := none }] ∧
    htmlExtract [tableC8F] = [] := by
  exact ⟨by rfl, by rfl, by rfl, by rfl⟩

/-- Witness for C9: a populated name survives a successful HTML cycle. -/
theorem c9_cache_monotone_witness :
    ∃ w, (getRaceState envHtmlOk stCache).2.last_session_name = some w ∧ w ≠ "" :=
  (c9_cache_monotone envHtmlOk stCache).2.2.2.1 "Heat 2" rfl (by decide)

/-- Supporting fact: when the XML probe selects nothing, the cycle is
idempotent — two back-to-back cycles over the same fetch/parse oracles agree
on `cars` and the sticky session fields, with only the clock free to differ.
The only obstruction to the full idempotence claim is the XML-path crash
recorded above. -/
theorem htmlPath_idempotent (f : String → FetchOutcome) (px : String → Option XNode)
    (ph : String → List HtmlTable) (t1 t2 : Nat) (st : SvcState)
    (hx : selectXml (Env.mk f px ph t1) = none) :
    ∃ r1 r2 st1 st2,
      getRaceState (Env.mk f px ph t1) st = (Except.ok r1, st1) ∧
      getRaceState (Env.mk f px ph t2) st1 = (Except.ok r2, st2) ∧
      r1.cars = r2.cars ∧ r1.session.name = r2.session.name ∧
      r1.session.flag = r2.session.flag ∧ r1.session.remaining = r2.session.remaining := by
  have hx2 : selectXml (Env.mk f px ph t2) = none := hx
  rcases hf : htmlFetch (Env.mk f px ph t1) with _ | body
  · have hf2 : htmlFetch (Env.mk f px ph t2) = none := hf
    exact ⟨_, _, _, _, getRaceState_fail _ st hx hf, getRaceState_fail _ _ hx2 hf2,
      rfl, rfl, rfl, rfl⟩
  · have hf2 : htmlFetch (Env.mk f px ph t2) = some body := hf
    exact ⟨_, _, _, _, getRaceState_html _ st body hx hf, getRaceState_html _ _ body hx2 hf2,
      rfl, rfl, rfl, rfl⟩
